import Mathlib

/-!
Shallow embedding of the hd-wallet transaction-history and bitcore-client
modules.  Pure functions of the source become Lean functions; the mutable
transaction cache and watched-address set become explicit state passing.
JavaScript numbers that can be `Infinity` or `NaN` (the height comparator)
are embedded as an explicit extended-number type.
-/

/-- JavaScript numeric values as they occur in `compareByOldestAndType`:
finite integers, the two infinities, and `NaN`. -/
inductive JsNum where
  | num (x : Int)
  | posInf
  | negInf
  | nan
  deriving DecidableEq, Repr

/-- JavaScript subtraction on the values above
(`Infinity - Infinity = NaN`, `finite - Infinity = -Infinity`, ...). -/
def JsNum.sub : JsNum → JsNum → JsNum
  | .nan, _ => .nan
  | _, .nan => .nan
  | .num a, .num b => .num (a - b)
  | .num _, .posInf => .negInf
  | .num _, .negInf => .posInf
  | .posInf, .num _ => .posInf
  | .negInf, .num _ => .negInf
  | .posInf, .posInf => .nan
  | .negInf, .negInf => .nan
  | .posInf, .negInf => .posInf
  | .negInf, .posInf => .negInf

/-- JavaScript falsiness of a number: `0` and `NaN` are falsy. -/
def JsNum.falsy : JsNum → Bool
  | .num x => x == 0
  | .nan => true
  | _ => false

/-- JavaScript `a || b` restricted to numbers. -/
def jsOr (a b : JsNum) : JsNum := if a.falsy then b else a

/-- The comparator value signals "a before b" exactly when it is negative. -/
def JsNum.isNeg : JsNum → Bool
  | .num x => x < 0
  | .negInf => true
  | _ => false

/-- The comparator value signals "a after b" exactly when it is positive. -/
def JsNum.isPos : JsNum → Bool
  | .num x => 0 < x
  | .posInf => true
  | _ => false

/-- A transaction output (bitcoinjs-lib `Output`): raw script bytes, the value
in satoshis, and the optional decoded address the wallet layer attaches
(absent on freshly converted outputs). -/
structure Output where
  script : List Nat
  value : Int
  address : Option String
  deriving DecidableEq, Repr

/-- A transaction input (bitcoinjs-lib `Input`): script bytes, the referenced
previous transaction hash in internal byte order, the previous output index,
and the sequence number. -/
structure Input where
  script : List Nat
  hash : List Nat
  index : Nat
  sequence : Nat
  deriving DecidableEq, Repr

/-- A canonical transaction (bitcoinjs-lib `Transaction`). -/
structure Transaction where
  version : Int
  locktime : Int
  ins : List Input
  outs : List Output
  deriving DecidableEq, Repr

/-- Value of one hexadecimal digit character; other characters give 0
(the source's `Buffer(s, 'hex')` is only applied to valid hex). -/
def hexDigitVal (c : Char) : Nat :=
  if 48 ≤ c.toNat ∧ c.toNat ≤ 57 then c.toNat - 48
  else if 97 ≤ c.toNat ∧ c.toNat ≤ 102 then c.toNat - 87
  else if 65 ≤ c.toNat ∧ c.toNat ≤ 70 then c.toNat - 55
  else 0

/-- The `Buffer(s, 'hex')` conversion: decode pairs of hex digits into bytes. -/
def hexToBytes : List Char → List Nat
  | a :: b :: rest => (hexDigitVal a * 16 + hexDigitVal b) :: hexToBytes rest
  | _ => []

/-- One lowercase hexadecimal digit character. -/
def nibbleChar (n : Nat) : Char :=
  if n < 10 then Char.ofNat (48 + n) else Char.ofNat (87 + n)

/-- Lowercase hexadecimal rendering of a byte sequence. -/
def bytesToHex (bs : List Nat) : String :=
  String.mk (bs.foldr (fun b acc => nibbleChar (b / 16) :: nibbleChar (b % 16) :: acc) [])

/-- The `TransactionInfo` record (src/lib/transaction.js, declared but not among the
sources): a transaction with its id, latest known height (`none` =
unconfirmed), block timestamp, and the ids of the transactions referenced by
its inputs. -/
structure TransactionInfo where
  tx : Transaction
  id : String
  height : Option Int
  timestamp : Option Int
  inputIds : List String
  deriving DecidableEq, Repr

/-- Modelled from the spec: the `TransactionInfo` constructor
(src/lib/transaction.js is not among the sources) wraps a transaction with
id, height and timestamp, deriving `inputIds` as "the ordered sequence of
transaction ids referenced by each input" — the display-order (reversed)
hex of each input's previous-transaction hash. -/
def TransactionInfo.make (tx : Transaction) (id : String)
    (height timestamp : Option Int) : TransactionInfo :=
  { tx := tx, id := id, height := height, timestamp := timestamp,
    inputIds := tx.ins.map fun i => bytesToHex i.hash.reverse }

/-- Modelled from the spec: a `Chain` (src/lib/discovery.js is not among the
sources) is an ordered set of derived addresses; the core only needs the
containment capability. -/
abbrev Chain := List String

/-- Modelled from the spec: "does this chain contain address X". -/
def chainContainsAddress (c : Chain) (a : String) : Bool := c.contains a

/-- Modelled from the spec: a `TransactionMap` (src/lib/transaction.js is not
among the sources) holds the full set of materialized `TransactionInfo`s. -/
structure TransactionMap where
  infos : List TransactionInfo
  deriving DecidableEq, Repr

/-- Modelled from the spec: map a function over all stored transactions. -/
def TransactionMap.map (m : TransactionMap) (f : TransactionInfo → α) : List α :=
  m.infos.map f

/-- Modelled from the spec: "resolve the referenced previous transaction's
output (via `inputIds[index]` into the full transaction set)"; absent ids,
unknown ids and out-of-range indices resolve to nothing. -/
def TransactionMap.getOutput (m : TransactionMap) (id : Option String)
    (index : Nat) : Option Output :=
  match id with
  | none => none
  | some i =>
    match m.infos.find? (fun info => info.id == i) with
    | none => none
    | some info => info.tx.outs.get? index

/-- Classification of a transaction's impact on the wallet. -/
inductive TransactionImpactType where
  | incoming
  | outgoing
  | internal
  deriving DecidableEq, BEq, Repr

/-- The wallet-level effect of one transaction. -/
structure TransactionImpact where
  id : String
  height : Option Int
  timestamp : Option Int
  type : TransactionImpactType
  value : Int
  balance : Int
  targets : List Output
  deriving DecidableEq, Repr

/-- The fixed type precedence used as the same-height tie-break. -/
def IMPACT_ORDERING : List TransactionImpactType :=
  [.incoming, .internal, .outgoing]

/-- The test `o.address && chainContainsAddress(chain, o.address)`. -/
def outBelongsTo (c : Chain) (o : Output) : Bool :=
  match o.address with
  | some a => chainContainsAddress c a
  | none => false

/-- The `isCredit` closure of `analyzeTransaction`: the output's address
belongs to the external or the internal chain. -/
def isCreditOut (external internal : Chain) (o : Output) : Bool :=
  outBelongsTo external o || outBelongsTo internal o

/-- The `isDebit` closure of `analyzeTransaction`. -/
def isDebitOut (external internal : Chain) (o : Output) : Bool :=
  !(isCreditOut external internal o)

/-- The `analyzeTransaction` function: classify one transaction against the two ownership
chains.  The two `forEach` accumulations over inputs and outputs become left
folds carrying `(value, counter)`. -/
def analyzeTransaction (info : TransactionInfo) (transactions : TransactionMap)
    (external internal : Chain) : TransactionImpact :=
  let insAcc := info.tx.ins.enum.foldl
    (fun (acc : Int × Nat) p =>
      match transactions.getOutput (info.inputIds[p.1]?) p.2.index with
      | some o =>
        if isCreditOut external internal o then (acc.1 - o.value, acc.2 + 1) else acc
      | none => acc)
    (0, 0)
  let outsAcc := info.tx.outs.foldl
    (fun (acc : Int × Nat) o =>
      if isCreditOut external internal o then (acc.1 + o.value, acc.2 + 1) else acc)
    (insAcc.1, 0)
  let value := outsAcc.1
  let nDebit := insAcc.2
  let nCredit := outsAcc.2
  let classified :=
    if nDebit = info.tx.ins.length ∧ nCredit = info.tx.outs.length then
      (TransactionImpactType.internal, ([] : List Output))
    else if 0 < value then
      let extTargets := info.tx.outs.filter (outBelongsTo external)
      (TransactionImpactType.incoming,
        if extTargets.length = 0 then info.tx.outs.filter (outBelongsTo internal)
        else extTargets)
    else
      (TransactionImpactType.outgoing, info.tx.outs.filter (isDebitOut external internal))
  { id := info.id, height := info.height, timestamp := info.timestamp,
    type := classified.1, value := value, balance := 0, targets := classified.2 }

/-- A nullable height as the comparator sees it: `null` reads as `Infinity`. -/
def heightNum (h : Option Int) : JsNum :=
  match h with
  | some x => .num x
  | none => .posInf

/-- The `compareByOldestAndType` comparator: ascending height (absent = `Infinity`, and
`Infinity - Infinity = NaN` is collapsed to `0` by `|| 0`), with the
`IMPACT_ORDERING` index difference as the tie-break. -/
def compareByOldestAndType (a b : TransactionImpact) : JsNum :=
  jsOr (jsOr ((heightNum a.height).sub (heightNum b.height)) (.num 0))
    (.num ((IMPACT_ORDERING.indexOf a.type : Int) - (IMPACT_ORDERING.indexOf b.type : Int)))

/-- JavaScript `Array.prototype.sort(cmp)` orders so that `cmp` is non-positive on every
adjacent pair; this is that pairwise relation. -/
def impactLE (a b : TransactionImpact) : Bool :=
  !(compareByOldestAndType a b).isPos

/-- The balance-setting `reduce` of `deriveImpacts`: the first element's
balance is its own value, each later element's balance is the previous
element's balance plus its value. -/
def foldBalances (prev : Option TransactionImpact) :
    List TransactionImpact → List TransactionImpact
  | [] => []
  | info :: rest =>
    let info' :=
      match prev with
      | some p => { info with balance := p.balance + info.value }
      | none => { info with balance := info.value }
    info' :: foldBalances (some info') rest

/-- The `deriveImpacts` function: analyze every transaction, sort chronologically, fold
the running balance, and reverse to newest-first display order.
`Array.prototype.sort(cmp)` (a comparison sort producing an order on which
the comparator is non-positive on adjacent pairs) is modelled as insertion
sort over the relation `cmp ≤ 0`. -/
def deriveImpacts (transactions : TransactionMap) (external internal : Chain) :
    List TransactionImpact :=
  let impacts := transactions.map
    (fun info => analyzeTransaction info transactions external internal)
  let sorted := impacts.insertionSort (fun a b => impactLE a b = true)
  let balanced := foldBalances none sorted
  balanced.reverse

/-- bitcore-node wire input. -/
structure BcInput where
  script : String
  prevTxId : String
  outputIndex : Int
  sequenceNumber : Int
  deriving DecidableEq, Repr

/-- bitcore-node wire output. -/
structure BcOutput where
  script : String
  satoshis : Int
  deriving DecidableEq, Repr

/-- bitcore-node wire transaction. -/
structure BcTransaction where
  hash : String
  version : Int
  nLockTime : Int
  inputs : List BcInput
  outputs : List BcOutput
  deriving DecidableEq, Repr

/-- bitcore-node wire transaction-with-block-info record. -/
structure BcTransactionInfo where
  tx : BcTransaction
  height : Int
  timestamp : Option Int
  deriving DecidableEq, Repr

/-- Parsed-address descriptor delivered inside a notification. -/
structure BcParsedAddress where
  hash : String
  network : String
  type : String
  deriving DecidableEq, Repr

/-- A live `address/transaction` push event; mempool notifications carry no
height and no timestamp at all. -/
structure BcNotification where
  address : BcParsedAddress
  rejected : Bool
  tx : BcTransaction
  height : Option Int
  timestamp : Option Int
  deriving DecidableEq, Repr

/-- insight-api wire input (`scriptSig.hex` flattened to one field). -/
structure InsightInput where
  txid : String
  vout : Int
  scriptSigHex : String
  sequence : Int
  deriving DecidableEq, Repr

/-- insight-api wire output (`scriptPubKey.hex` flattened; `value` is a
decimal string of bitcoins). -/
structure InsightOutput where
  value : String
  scriptPubKeyHex : String
  deriving DecidableEq, Repr

/-- insight-api wire transaction record. -/
structure InsightTransactionInfo where
  txid : String
  version : Int
  locktime : Int
  vin : List InsightInput
  vout : List InsightOutput
  blockheight : Int
  time : Int
  deriving DecidableEq, Repr

/-- JavaScript `x >>> 0`: convert to an unsigned 32-bit integer. -/
def toUint32 (x : Int) : Nat := (x % (2 ^ 32 : Int)).toNat

/-- The empty script buffer substituted into neutered inputs. -/
def EMPTY_BUFFER : List Nat := []

/-- The `bitcoreToTransaction` adapter: convert a node-native wire transaction to the
canonical form.  The source defaults `neutered` to `true`; here it is passed
explicitly at every call site.  The previous-transaction hash is byte-reversed
from display order to internal order. -/
def bitcoreToTransaction (r : BcTransaction) (neutered : Bool) : Transaction :=
  { version := r.version,
    locktime := r.nLockTime,
    ins := r.inputs.map fun ir =>
      { script := if neutered then EMPTY_BUFFER else hexToBytes ir.script.data,
        hash := (hexToBytes ir.prevTxId.data).reverse,
        index := toUint32 ir.outputIndex,
        sequence := toUint32 ir.sequenceNumber },
    outs := r.outputs.map fun outR =>
      { script := hexToBytes outR.script.data,
        value := outR.satoshis,
        address := none } }

/-- Decimal digit characters folded into a number. -/
def digitsToNat (cs : List Char) : Nat :=
  cs.foldl (fun acc c => acc * 10 + (c.toNat - 48)) 0

/-- Modelled from the spec: the index-service output `value` is a
"decimal-string" of bitcoins converted to satoshis; the source computes
`Math.round(parseFloat(value) * 1e8)`, modelled here in exact decimal
arithmetic on at most eight fractional digits. -/
def parseBtcValue (s : String) : Int :=
  let parts := s.splitOn "."
  let whole := digitsToNat ((parts.headD "").data)
  let fracDigits := ((parts.get? 1).getD "").data
  let frac := digitsToNat (fracDigits.take 8 ++ List.replicate (8 - fracDigits.length) '0')
  (whole * 100000000 + frac : Int)

/-- The `insightToTransaction` adapter: convert an index-service wire transaction to the
canonical form; input scripts are kept, hashes byte-reversed. -/
def insightToTransaction (r : InsightTransactionInfo) : Transaction :=
  { version := r.version,
    locktime := r.locktime,
    ins := r.vin.map fun ir =>
      { script := hexToBytes ir.scriptSigHex.data,
        hash := (hexToBytes ir.txid.data).reverse,
        index := toUint32 ir.vout,
        sequence := toUint32 ir.sequence },
    outs := r.vout.map fun outR =>
      { script := hexToBytes outR.scriptPubKeyHex.data,
        value := parseBtcValue outR.value,
        address := none } }

/-- The `transactions: Map<string, Transaction>` member of
`BitcoreBlockchain` (txs interned by id), threaded explicitly as state; the
most recent binding is first. -/
abbrev TxCache := List (String × Transaction)

/-- JavaScript `Map.get`. -/
def cacheGet (c : TxCache) (id : String) : Option Transaction :=
  (c.find? (fun p => p.1 == id)).map Prod.snd

/-- JavaScript `Map.set`, used only on absent keys. -/
def cacheSet (c : TxCache) (id : String) (tx : Transaction) : TxCache :=
  (id, tx) :: c

/-- The `BitcoreBlockchain.toInfo` method: intern the converted transaction by id, and
expose height and timestamp only when the reported height is positive.  The
extra boolean records whether the conversion (cache miss) branch ran. -/
def toInfo (cache : TxCache) (r : BcTransactionInfo) :
    TransactionInfo × TxCache × Bool :=
  let id := r.tx.hash
  match cacheGet cache id with
  | some tx =>
    (TransactionInfo.make tx id (if 0 < r.height then some r.height else none)
      (if 0 < r.height then r.timestamp else none), cache, false)
  | none =>
    let tx := bitcoreToTransaction r.tx true
    (TransactionInfo.make tx id (if 0 < r.height then some r.height else none)
      (if 0 < r.height then r.timestamp else none), cacheSet cache id tx, true)

/-- The `BitcoreBlockchain.insightToInfo` method: same interning over the insight-api
record. -/
def insightToInfo (cache : TxCache) (r : InsightTransactionInfo) :
    TransactionInfo × TxCache × Bool :=
  let id := r.txid
  match cacheGet cache id with
  | some tx =>
    (TransactionInfo.make tx id
      (if 0 < r.blockheight then some r.blockheight else none)
      (if 0 < r.blockheight then some r.time else none), cache, false)
  | none =>
    let tx := insightToTransaction r
    (TransactionInfo.make tx id
      (if 0 < r.blockheight then some r.blockheight else none)
      (if 0 < r.blockheight then some r.time else none), cacheSet cache id tx, true)

/-- One observation of a transaction: via the node-native path (live
notification or history page, both funnel into `toInfo`) or via the
index-service path (`insightToInfo`). -/
inductive Observation where
  | node (r : BcTransactionInfo)
  | insight (r : InsightTransactionInfo)
  deriving DecidableEq, Repr

/-- The transaction id an observation carries. -/
def Observation.txid : Observation → String
  | .node r => r.tx.hash
  | .insight r => r.txid

/-- Dispatch an observation to the interning conversion it uses. -/
def observe (cache : TxCache) : Observation → TransactionInfo × TxCache × Bool
  | .node r => toInfo cache r
  | .insight r => insightToInfo cache r

/-- The `subscribe` method: the watched-address `Set` is threaded as state; the result is
the new state plus the address list forwarded to
`socket.subscribe('address/transaction', addresses)`. -/
def subscribe (state : List String) (addresses : List String) :
    List String × List String :=
  let fresh := addresses.filter (fun a => !(state.contains a))
  let state' := fresh.foldl (fun s a => if s.contains a then s else s ++ [a]) state
  (state', fresh)

/-- Rotate a 32-bit word right. -/
def rotr32 (x n : Nat) : Nat :=
  ((x >>> n) ||| (x <<< (32 - n))) % 4294967296

/-- SHA-256 big sigma 0. -/
def bsig0 (x : Nat) : Nat := rotr32 x 2 ^^^ rotr32 x 13 ^^^ rotr32 x 22

/-- SHA-256 big sigma 1. -/
def bsig1 (x : Nat) : Nat := rotr32 x 6 ^^^ rotr32 x 11 ^^^ rotr32 x 25

/-- SHA-256 small sigma 0. -/
def ssig0 (x : Nat) : Nat := rotr32 x 7 ^^^ rotr32 x 18 ^^^ (x >>> 3)

/-- SHA-256 small sigma 1. -/
def ssig1 (x : Nat) : Nat := rotr32 x 17 ^^^ rotr32 x 19 ^^^ (x >>> 10)

/-- The SHA-256 round constants. -/
def shaK : List Nat :=
  [1116352408, 1899447441, 3049323471, 3921009573,
   961987163, 1508970993, 2453635748, 2870763221,
   3624381080, 310598401, 607225278, 1426881987,
   1925078388, 2162078206, 2614888103, 3248222580,
   3835390401, 4022224774, 264347078, 604807628,
   770255983, 1249150122, 1555081692, 1996064986,
   2554220882, 2821834349, 2952996808, 3210313671,
   3336571891, 3584528711, 113926993, 338241895,
   666307205, 773529912, 1294757372, 1396182291,
   1695183700, 1986661051, 2177026350, 2456956037,
   2730485921, 2820302411, 3259730800, 3345764771,
   3516065817, 3600352804, 4094571909, 275423344,
   430227734, 506948616, 659060556, 883997877,
   958139571, 1322822218, 1537002063, 1747873779,
   1955562222, 2024104815, 2227730452, 2361852424,
   2428436474, 2756734187, 3204031479, 3329325298]

/-- The SHA-256 initial state. -/
def shaH0 : List Nat :=
  [1779033703, 3144134277, 1013904242, 2773480762,
   1359893119, 2600822924, 528734635, 1541459225]

/-- A number as `count` big-endian bytes. -/
def natToBytesBE (n count : Nat) : List Nat :=
  (List.range count).map fun i => (n >>> (8 * (count - 1 - i))) % 256

/-- Four bytes into a big-endian 32-bit word. -/
def toWords : List Nat → List Nat
  | a :: b :: c :: d :: rest =>
    (a * 16777216 + b * 65536 + c * 256 + d) :: toWords rest
  | _ => []

/-- SHA-256 message padding: `0x80`, zeros to 56 mod 64, the bit length. -/
def shaPad (msg : List Nat) : List Nat :=
  msg ++ 0x80 :: List.replicate ((119 - msg.length % 64) % 64) 0
      ++ natToBytesBE (8 * msg.length) 8

/-- Split into 64-byte blocks; structural recursion on a fuel bounded by the
list length (every step drops at least one element). -/
def chunk64Go : Nat → List Nat → List (List Nat)
  | 0, _ => []
  | _, [] => []
  | fuel + 1, a :: rest =>
    ((a :: rest).take 64) :: chunk64Go fuel ((a :: rest).drop 64)

/-- Split into 64-byte blocks. -/
def chunk64 (l : List Nat) : List (List Nat) := chunk64Go l.length l

/-- Append the next message-schedule word. -/
def scheduleStep (ws : List Nat) : List Nat :=
  let n := ws.length
  ws ++ [(ssig1 (ws.getD (n - 2) 0) + ws.getD (n - 7) 0
          + ssig0 (ws.getD (n - 15) 0) + ws.getD (n - 16) 0) % 4294967296]

/-- Extend the 16 block words to the 64 schedule words. -/
def schedule (ws : List Nat) : List Nat :=
  (List.range 48).foldl (fun acc _ => scheduleStep acc) ws

/-- One SHA-256 round over the eight-word working state. -/
def compressStep (st : List Nat) (kw : Nat × Nat) : List Nat :=
  match st with
  | [a, b, c, d, e, f, g, h] =>
    let ch := (e &&& f) ^^^ ((e ^^^ 4294967295) &&& g)
    let maj := (a &&& b) ^^^ (a &&& c) ^^^ (b &&& c)
    let t1 := (h + bsig1 e + ch + kw.1 + kw.2) % 4294967296
    let t2 := (bsig0 a + maj) % 4294967296
    [(t1 + t2) % 4294967296, a, b, c, (d + t1) % 4294967296, e, f, g]
  | other => other

/-- SHA-256 compression of one 64-byte block into the chaining state. -/
def compressBlock (h0 : List Nat) (block : List Nat) : List Nat :=
  let st := (shaK.zip (schedule (toWords block))).foldl compressStep h0
  (h0.zip st).map fun p => (p.1 + p.2) % 4294967296

/-- SHA-256 of a byte sequence. -/
def sha256 (msg : List Nat) : List Nat :=
  ((chunk64 (shaPad msg)).foldl compressBlock shaH0).foldr
    (fun w acc => natToBytesBE w 4 ++ acc) []

/-- The base58 digit alphabet. -/
def BASE58_ALPHABET : List Char :=
  "123456789ABCDEFGHJKLMNPQRSTUVWXYZabcdefghijkmnopqrstuvwxyz".data

/-- Base58 digits, least significant first; structural recursion on a fuel
bounded by the number itself (`n / 58 < n` for positive `n`). -/
def base58Go : Nat → Nat → List Char
  | _, 0 => []
  | 0, _ => []
  | fuel + 1, n => BASE58_ALPHABET.getD (n % 58) '1' :: base58Go fuel (n / 58)

/-- Base58 digits of a number, least significant first. -/
def base58Digits (n : Nat) : List Char := base58Go n n

/-- Big-endian bytes into a number. -/
def bytesToNat (bs : List Nat) : Nat :=
  bs.foldl (fun acc b => acc * 256 + b) 0

/-- Modelled from the spec: `baddress.toBase58Check` of the external
bitcoinjs-lib collaborator — the "base58-check string" of a version byte and
hash: payload, a 4-byte double-SHA-256 checksum, leading zero bytes written
as '1'. -/
def toBase58Check (hash : List Nat) (version : Nat) : String :=
  let payload := version :: hash
  let full := payload ++ (sha256 (sha256 payload)).take 4
  String.mk (List.replicate (full.takeWhile (fun b => b == 0)).length '1'
    ++ (base58Digits (bytesToNat full)).reverse)

/-- A bitcoinjs-lib network: the two address version bytes used here. -/
structure Network where
  pubKeyHash : Nat
  scriptHash : Nat
  deriving DecidableEq, Repr

/-- Modelled from the spec: the mainnet entry of the external bitcoinjs-lib
`networks` table. -/
def networkBitcoin : Network := { pubKeyHash := 0x00, scriptHash := 0x05 }

/-- Modelled from the spec: the testnet entry of the external bitcoinjs-lib
`networks` table. -/
def networkTestnet : Network := { pubKeyHash := 0x6f, scriptHash := 0xc4 }

/-- The `bitcoreToNetwork` decoder: only `livenet` and `testnet` are recognized; anything
else throws. -/
def bitcoreToNetwork (s : String) : Except String Network :=
  if s = "livenet" then .ok networkBitcoin
  else if s = "testnet" then .ok networkTestnet
  else .error ("Unknown bitcore network " ++ s)

/-- The `bitcoreToAddressVersion` decoder: only `pubkeyhash` and `scripthash` are
recognized; anything else throws. -/
def bitcoreToAddressVersion (n : Network) (s : String) : Except String Nat :=
  if s = "pubkeyhash" then .ok n.pubKeyHash
  else if s = "scripthash" then .ok n.scriptHash
  else .error ("Unknown bitcore address version " ++ s)

/-- The `bitcoreToAddress` adapter: decode the descriptor and re-encode as base58-check;
a failure of either decoding step propagates (the source throws). -/
def bitcoreToAddress (r : BcParsedAddress) : Except String String :=
  match bitcoreToNetwork r.network with
  | .error e => .error e
  | .ok n =>
    match bitcoreToAddressVersion n r.type with
    | .error e => .error e
    | .ok v => .ok (toBase58Check (hexToBytes r.hash.data) v)

/-- An observation envelope delivered to consumers. -/
structure TransactionMatch where
  info : TransactionInfo
  addresses : List String
  rejected : Bool
  deriving DecidableEq, Repr

/-- The `BitcoreBlockchain.notificationToMatch` method: mempool notifications without a
height get the `-1` sentinel before `toInfo`; the parsed address is
re-encoded, and an unrecognized descriptor throws (models as `Except`). -/
def notificationToMatch (cache : TxCache) (r : BcNotification) :
    Except String (TransactionMatch × TxCache) :=
  let bci : BcTransactionInfo :=
    { tx := r.tx,
      height := match r.height with | some h => h | none => -1,
      timestamp := match r.timestamp with | some t => some t | none => none }
  let converted := toInfo cache bci
  match bitcoreToAddress r.address with
  | .ok a =>
    .ok ({ info := converted.1, addresses := [a], rejected := r.rejected },
      converted.2.1)
  | .error e => .error e

/-- A history page as the pagination engine emits it, the backend reply
spread together with the window it answered. -/
structure HistoryPage (α : Type) where
  items : List α
  totalCount : Nat
  winFrom : Nat
  winTo : Nat
  deriving DecidableEq, Repr

/-- Modelled from the spec: the backend's `getAddressHistory` for a window
`[from, to)` — the remote service is not among the sources; it is modelled as
a constant chronologically indexed item list, answering the matching slice
and the constant total count. -/
def getAddressHistory (allItems : List α) (winFrom winTo : Nat) :
    List α × Nat :=
  ((allItems.drop winFrom).take (winTo - winFrom), allItems.length)

/-- The pagination loop after the first page, when the most recently reported
total count is the backend's `allItems.length`: keep requesting
`[previous.to, min(previous.to + pageLength, totalCount))` while
`previous.to < totalCount`. -/
def lookupPagesGo (allItems : List α) (pageLength : Nat) :
    Nat → Nat → List (HistoryPage α)
  | 0, _ => []
  | fuel + 1, winTo =>
    if winTo < allItems.length ∧ 0 < pageLength then
      let winTo' := min (winTo + pageLength) allItems.length
      let r := getAddressHistory allItems winTo winTo'
      { items := r.1, totalCount := r.2, winFrom := winTo, winTo := winTo' } ::
        lookupPagesGo allItems pageLength fuel winTo'
    else []

/-- The loop above with enough fuel (`to` advances by at least one per page,
so `totalCount - to` pages bound the run). -/
def lookupPagesFrom (allItems : List α) (pageLength winTo : Nat) :
    List (HistoryPage α) :=
  lookupPagesGo allItems pageLength (allItems.length - winTo) winTo

/-- The `lookupAllAddressHistories` engine over the constant backend, with
`Stream.generate` modelled from the spec (src/lib/stream.js is not among the
sources): starting from the seed state
`{from := 0, to := 0, items := [], totalCount := pageLength}`, while the
continue test `to < totalCount` holds on the previous state, request the next
window and emit the reply; the seed itself is not emitted.  The first request
therefore covers `[0, min(0 + pageLength, pageLength))` against the assumed
total `pageLength`, and every later state carries the backend's reported
total count. -/
def lookupAllAddressHistories (allItems : List α) (pageLength : Nat) :
    List (HistoryPage α) :=
  if 0 < pageLength then
    let winTo := min (0 + pageLength) pageLength
    let r := getAddressHistory allItems 0 winTo
    { items := r.1, totalCount := r.2, winFrom := 0, winTo := winTo } ::
      lookupPagesFrom allItems pageLength winTo
  else []

/-- The spec's fixed type precedence `incoming < internal < outgoing`. -/
def impactTypeRank : TransactionImpactType → Nat
  | .incoming => 0
  | .internal => 1
  | .outgoing => 2

def mkImpactW (h : Option Int) (t : TransactionImpactType) : TransactionImpact :=
  { id := "w", height := h, timestamp := none, type := t, value := 0,
    balance := 0, targets := [] }

def chainExtW : Chain := ["addrExt"]

def chainIntW : Chain := ["addrInt"]

def prevTxInfoW : TransactionInfo :=
  { tx := { version := 1, locktime := 0, ins := [],
            outs := [{ script := [], value := 5000, address := some "addrExt" }] },
    id := "prevtx", height := some 1, timestamp := some 100, inputIds := [] }

def spendTxInfoW : TransactionInfo :=
  { tx := { version := 1, locktime := 0,
            ins := [{ script := [], hash := [], index := 0, sequence := 0 }],
            outs := [{ script := [], value := 3000, address := some "addrInt" },
                     { script := [], value := 1800, address := some "addrOther" }] },
    id := "spendtx", height := some 2, timestamp := some 200, inputIds := ["prevtx"] }

def txMapW : TransactionMap := { infos := [prevTxInfoW, spendTxInfoW] }

def allOwnTxInfoW : TransactionInfo :=
  { tx := { version := 1, locktime := 0,
            ins := [{ script := [], hash := [], index := 0, sequence := 0 }],
            outs := [{ script := [], value := 4900, address := some "addrInt" }] },
    id := "owntx", height := some 3, timestamp := none, inputIds := ["prevtx"] }

def txMapW2 : TransactionMap := { infos := [prevTxInfoW, allOwnTxInfoW] }

/-- The per-input resolution of `analyzeTransaction`: the value of the
resolved previous output when it is owned by either chain. -/
def debitResolve (info : TransactionInfo) (transactions : TransactionMap)
    (external internal : Chain) (p : Nat × Input) : Option Int :=
  match transactions.getOutput (info.inputIds[p.1]?) p.2.index with
  | some o => if isCreditOut external internal o then some o.value else none
  | none => none

/-- The values debited by a transaction's inputs. -/
def debitedInputValues (info : TransactionInfo) (transactions : TransactionMap)
    (external internal : Chain) : List Int :=
  info.tx.ins.enum.filterMap (debitResolve info transactions external internal)

/-- The conversion an observation would run on a cache miss. -/
def Observation.build : Observation → Transaction
  | .node r => bitcoreToTransaction r.tx true
  | .insight r => insightToTransaction r

def nodeObsW : Observation :=
  .node { tx := { hash := "aa", version := 1, nLockTime := 0,
                  inputs := [], outputs := [] },
          height := 0, timestamp := some 9 }

def insightObsW : Observation :=
  .insight { txid := "aa", version := 1, locktime := 0, vin := [], vout := [],
             blockheight := 5, time := 42 }

def bcZeroHeightW : BcTransactionInfo :=
  { tx := { hash := "bb", version := 1, nLockTime := 0, inputs := [], outputs := [] },
    height := 0, timestamp := some 9 }

def notifW : BcNotification :=
  { address := { hash := "0000000000000000000000000000000000000000",
                 network := "livenet", type := "pubkeyhash" },
    rejected := false, tx := bcZeroHeightW.tx, height := none, timestamp := some 7 }

theorem compare_eval (a b : TransactionImpact) :
    compareByOldestAndType a b =
      match a.height, b.height with
      | some x, some y =>
        if x = y then
          .num ((IMPACT_ORDERING.indexOf a.type : Int) - IMPACT_ORDERING.indexOf b.type)
        else .num (x - y)
      | some _, none => .negInf
      | none, some _ => .posInf
      | none, none =>
        .num ((IMPACT_ORDERING.indexOf a.type : Int) - IMPACT_ORDERING.indexOf b.type) := by
  rcases ha : a.height with _ | x <;> rcases hb : b.height with _ | y <;>
    simp only [compareByOldestAndType, heightNum, ha, hb, JsNum.sub, jsOr, JsNum.falsy]
  · rfl
  · rfl
  · rfl
  · by_cases hxy : x = y <;> simp [hxy, sub_eq_zero, JsNum.falsy]

theorem impactLE_iff (a b : TransactionImpact) :
    impactLE a b = true ↔
      match a.height, b.height with
      | some x, some y =>
        x < y ∨ (x = y ∧ (IMPACT_ORDERING.indexOf a.type : Int) ≤ IMPACT_ORDERING.indexOf b.type)
      | some _, none => True
      | none, some _ => False
      | none, none => (IMPACT_ORDERING.indexOf a.type : Int) ≤ IMPACT_ORDERING.indexOf b.type := by
  rw [impactLE, compare_eval]
  rcases ha : a.height with _ | x <;> rcases hb : b.height with _ | y
  · simp [JsNum.isPos]
  · simp [JsNum.isPos]
  · simp [JsNum.isPos]
  · by_cases hxy : x = y <;> simp [hxy, JsNum.isPos] <;> omega

theorem impactLE_total (a b : TransactionImpact) :
    impactLE a b = true ∨ impactLE b a = true := by
  rw [impactLE_iff, impactLE_iff]
  rcases a.height with _ | x <;> rcases b.height with _ | y <;> simp <;> omega

theorem impactLE_trans (a b c : TransactionImpact) (h1 : impactLE a b = true)
    (h2 : impactLE b c = true) : impactLE a c = true := by
  rw [impactLE_iff] at h1 h2 ⊢
  rcases ha : a.height with _ | x <;> rcases hb : b.height with _ | y <;>
      rcases hc : c.height with _ | z <;>
    simp only [ha, hb, hc] at h1 h2 ⊢ <;> first | trivial | omega

theorem foldBalances_value_map :
    ∀ (l : List TransactionImpact) (prev : Option TransactionImpact),
      (foldBalances prev l).map TransactionImpact.value = l.map TransactionImpact.value
  | [], _ => rfl
  | info :: rest, prev => by
    rcases prev with _ | p <;>
      simp [foldBalances, foldBalances_value_map rest]

theorem foldBalances_balance :
    ∀ (l : List TransactionImpact) (prev : Option TransactionImpact) (i : Nat)
      (hi : i < (foldBalances prev l).length),
      ((foldBalances prev l).get ⟨i, hi⟩).balance =
        (match prev with | none => 0 | some p => p.balance) +
          ((l.map TransactionImpact.value).take (i + 1)).sum
  | [], prev, i, hi => absurd hi (by simp [foldBalances])
  | info :: rest, prev, 0, hi => by
    rcases prev with _ | p <;> simp [foldBalances]
  | info :: rest, prev, i + 1, hi => by
    rcases prev with _ | p <;>
      · simp only [foldBalances, List.get, List.map, List.take, List.sum_cons]
        rw [foldBalances_balance rest _ i]
        simp
        try ring

theorem foldBalances_balance_none (l : List TransactionImpact) (i : Nat)
    (hi : i < (foldBalances none l).length) :
    ((foldBalances none l).get ⟨i, hi⟩).balance =
      ((l.map TransactionImpact.value).take (i + 1)).sum := by
  rw [foldBalances_balance]
  norm_num

theorem mem_foldBalances :
    ∀ (l : List TransactionImpact) (prev : Option TransactionImpact)
      (b : TransactionImpact), b ∈ foldBalances prev l →
      ∃ a ∈ l, b.height = a.height ∧ b.type = a.type
  | [], _, b, hb => absurd hb (by simp [foldBalances])
  | info :: rest, prev, b, hb => by
    rcases prev with _ | p <;>
      · simp only [foldBalances, List.mem_cons] at hb
        rcases hb with hb | hb
        · exact ⟨info, List.mem_cons_self _ _, by simp [hb]⟩
        · obtain ⟨a, ha, h2⟩ := mem_foldBalances rest _ b hb
          exact ⟨a, List.mem_cons_of_mem _ ha, h2⟩

theorem impactLE_fields (a b a' b' : TransactionImpact)
    (h1 : a.height = a'.height) (h2 : a.type = a'.type)
    (h3 : b.height = b'.height) (h4 : b.type = b'.type) :
    impactLE a b = impactLE a' b' := by
  simp [impactLE, compareByOldestAndType, heightNum, h1, h2, h3, h4]

theorem pairwise_foldBalances :
    ∀ (l : List TransactionImpact) (prev : Option TransactionImpact),
      l.Pairwise (fun a b => impactLE a b = true) →
      (foldBalances prev l).Pairwise (fun a b => impactLE a b = true)
  | [], _, _ => by simp [foldBalances]
  | info :: rest, prev, hp => by
    rw [List.pairwise_cons] at hp
    rcases prev with _ | p <;>
      · simp only [foldBalances]
        rw [List.pairwise_cons]
        refine ⟨?_, pairwise_foldBalances rest _ hp.2⟩
        intro b hb
        obtain ⟨a, ha, hh, ht⟩ := mem_foldBalances rest _ b hb
        exact (impactLE_fields _ b info a rfl rfl hh ht).trans (hp.1 a ha)

theorem analyze_insFold (info : TransactionInfo) (transactions : TransactionMap)
    (external internal : Chain) :
    ∀ (l : List (Nat × Input)) (v : Int) (n : Nat),
      l.foldl (fun (acc : Int × Nat) p =>
        match transactions.getOutput (info.inputIds[p.1]?) p.2.index with
        | some o =>
          if isCreditOut external internal o then (acc.1 - o.value, acc.2 + 1) else acc
        | none => acc) (v, n) =
      (v - ((l.filterMap (debitResolve info transactions external internal)).sum),
       n + (l.filterMap (debitResolve info transactions external internal)).length)
  | [], v, n => by simp
  | p :: l, v, n => by
    rcases hg : transactions.getOutput (info.inputIds[p.1]?) p.2.index with _ | o
    · simp only [List.foldl_cons, hg]
      rw [analyze_insFold info transactions external internal l]
      simp [List.filterMap_cons, debitResolve, hg]
    · by_cases hc : isCreditOut external internal o
    -- some, credit or not
      · simp only [List.foldl_cons, hg, if_pos hc]
        rw [analyze_insFold info transactions external internal l]
        simp [List.filterMap_cons, debitResolve, hg, hc]
        constructor
        · ring
        · omega
      · simp only [List.foldl_cons, hg, if_neg hc]
        rw [analyze_insFold info transactions external internal l]
        simp [List.filterMap_cons, debitResolve, hg, hc]

theorem analyze_outsFold (external internal : Chain) :
    ∀ (l : List Output) (v : Int) (n : Nat),
      l.foldl (fun (acc : Int × Nat) o =>
        if isCreditOut external internal o then (acc.1 + o.value, acc.2 + 1) else acc) (v, n) =
      (v + ((l.filter (isCreditOut external internal)).map Output.value).sum,
       n + (l.filter (isCreditOut external internal)).length)
  | [], v, n => by simp
  | o :: l, v, n => by
    by_cases hc : isCreditOut external internal o
    · simp only [List.foldl_cons, if_pos hc]
      rw [analyze_outsFold external internal l]
      simp [hc]
      constructor
      · ring
      · omega
    · simp only [List.foldl_cons, if_neg hc]
      rw [analyze_outsFold external internal l]
      simp [hc]

theorem filterMap_length_of_forall_isSome :
    ∀ (l : List β) (f : β → Option γ), (∀ x ∈ l, (f x).isSome) →
      (l.filterMap f).length = l.length
  | [], _, _ => rfl
  | x :: l, f, h => by
    rcases hx : f x with _ | y
    · exact absurd (h x (List.mem_cons_self _ _)) (by simp [hx])
    · simp only [List.filterMap_cons, hx, List.length_cons]
      rw [filterMap_length_of_forall_isSome l f
        (fun z hz => h z (List.mem_cons_of_mem _ hz))]

theorem cacheGet_cacheSet_same (c : TxCache) (id : String) (tx : Transaction) :
    cacheGet (cacheSet c id tx) id = some tx := by
  simp [cacheGet, cacheSet]

theorem cacheGet_cacheSet_other (c : TxCache) (id id' : String) (tx : Transaction)
    (h : (id == id') = false) :
    cacheGet (cacheSet c id tx) id' = cacheGet c id' := by
  simp [cacheGet, cacheSet, List.find?_cons, h]

theorem observe_miss_parts (cache : TxCache) (o : Observation)
    (h : cacheGet cache o.txid = none) :
    (observe cache o).1.tx = o.build ∧
    (observe cache o).2.1 = cacheSet cache o.txid o.build ∧
    (observe cache o).2.2 = true := by
  rcases o with r | r <;>
    · simp only [Observation.txid] at h
      simp [observe, toInfo, insightToInfo, h, Observation.build,
        Observation.txid, TransactionInfo.make]

theorem observe_hit_parts (cache : TxCache) (o : Observation) (tx : Transaction)
    (h : cacheGet cache o.txid = some tx) :
    (observe cache o).1.tx = tx ∧
    (observe cache o).2.1 = cache ∧
    (observe cache o).2.2 = false := by
  rcases o with r | r <;>
    · simp only [Observation.txid] at h
      simp [observe, toInfo, insightToInfo, h, TransactionInfo.make]

theorem mem_foldl_setAdd (a : String) :
    ∀ (l s : List String),
      a ∈ l.foldl (fun s a => if s.contains a then s else s ++ [a]) s ↔
        a ∈ s ∨ a ∈ l
  | [], s => by simp
  | b :: l, s => by
    rw [List.foldl_cons, mem_foldl_setAdd a l]
    by_cases hb : s.contains b
    · simp only [if_pos hb]
      constructor
      · rintro (h | h)
        · exact Or.inl h
        · exact Or.inr (List.mem_cons_of_mem _ h)
      · rintro (h | h)
        · exact Or.inl h
        · rcases List.mem_cons.mp h with rfl | h
          · exact Or.inl (by simpa using hb)
          · exact Or.inr h
    · simp only [if_neg hb, List.mem_append, List.mem_singleton, List.mem_cons]
      tauto

theorem lookupPagesGo_length (allItems : List α) (pageLength : Nat)
    (hL : 0 < pageLength) :
    ∀ (fuel winTo : Nat), allItems.length - winTo ≤ fuel →
      (lookupPagesGo allItems pageLength fuel winTo).length =
        (allItems.length - winTo + pageLength - 1) / pageLength
  | 0, winTo, hf => by
    have : allItems.length - winTo = 0 := by omega
    rw [this]
    simp only [lookupPagesGo, List.length_nil]
    rw [Nat.div_eq_of_lt (by omega)]
  | fuel + 1, winTo, hf => by
    by_cases hcond : winTo < allItems.length
    · rw [lookupPagesGo, if_pos ⟨hcond, hL⟩]
      simp only [List.length_cons]
      rw [lookupPagesGo_length allItems pageLength hL fuel
        (min (winTo + pageLength) allItems.length) (by omega)]
      by_cases hfit : winTo + pageLength ≤ allItems.length
      · rw [min_eq_left hfit]
        have h1 : allItems.length - winTo + pageLength - 1 =
            (allItems.length - (winTo + pageLength) + pageLength - 1) + pageLength := by
          omega
        rw [h1, Nat.add_div_right _ hL]
      · rw [min_eq_right (by omega)]
        have h2 : allItems.length - allItems.length = 0 := by omega
        rw [h2]
        rw [Nat.div_eq_of_lt (by omega),
          Nat.div_eq_of_lt_le
            (by omega : 1 * pageLength ≤ allItems.length - winTo + pageLength - 1)
            (by omega : allItems.length - winTo + pageLength - 1 < (1 + 1) * pageLength)]
    · rw [lookupPagesGo, if_neg (by omega)]
      simp only [List.length_nil]
      rw [Nat.div_eq_of_lt (by omega)]

theorem lookupPagesGo_join (allItems : List α) (pageLength : Nat)
    (hL : 0 < pageLength) :
    ∀ (fuel winTo : Nat), allItems.length - winTo ≤ fuel →
      (((lookupPagesGo allItems pageLength fuel winTo).map
        HistoryPage.items).flatten) = allItems.drop winTo
  | 0, winTo, hf => by
    simp only [lookupPagesGo, List.map_nil, List.flatten_nil]
    rw [List.drop_eq_nil_of_le (by omega)]
  | fuel + 1, winTo, hf => by
    by_cases hcond : winTo < allItems.length
    · rw [lookupPagesGo, if_pos ⟨hcond, hL⟩]
      simp only [List.map_cons, List.flatten_cons, getAddressHistory]
      rw [lookupPagesGo_join allItems pageLength hL fuel
        (min (winTo + pageLength) allItems.length) (by omega)]
      rw [show allItems.drop (min (winTo + pageLength) allItems.length) =
        (allItems.drop winTo).drop (min (winTo + pageLength) allItems.length - winTo) by
          rw [List.drop_drop]
          congr 1
          omega]
      exact List.take_append_drop _ _
    · rw [lookupPagesGo, if_neg (by omega)]
      simp only [List.map_nil, List.flatten_nil]
      rw [List.drop_eq_nil_of_le (by omega)]

/-- C2: in the chronological order produced by `compareByOldestAndType`,
present heights sort ascending regardless of type, an absent height counts as
`+Infinity` and follows every present height, and equal heights (including
both absent) fall back to the precedence `incoming < internal < outgoing`. -/
theorem compareByOldestAndType_ordering (a b : TransactionImpact) :
    (∀ h1 h2 : Int, a.height = some h1 → b.height = some h2 → h1 < h2 →
      (compareByOldestAndType a b).isNeg = true) ∧
    (∀ h1 : Int, a.height = some h1 → b.height = none →
      (compareByOldestAndType a b).isNeg = true) ∧
    (a.height = b.height →
      ((compareByOldestAndType a b).isNeg = true ↔
        impactTypeRank a.type < impactTypeRank b.type)) := by
  refine ⟨?_, ?_, ?_⟩
  · intro h1 h2 e1 e2 hlt
    rw [compare_eval]
    simp only [e1, e2, if_neg (by omega : ¬ h1 = h2), JsNum.isNeg]
    simp; omega
  · intro h1 e1 e2
    rw [compare_eval]
    simp only [e1, e2, JsNum.isNeg]
  · intro he
    rw [compare_eval]
    rcases hb : b.height with _ | y
    · rw [he, hb]
      simp only [JsNum.isNeg]
      cases a.type <;> cases b.type <;> decide
    · rw [he, hb]
      simp only [eq_self_iff_true, if_true, JsNum.isNeg]
      cases a.type <;> cases b.type <;> decide

theorem compareByOldestAndType_ordering_wit :
    (compareByOldestAndType (mkImpactW (some 1) .outgoing) (mkImpactW (some 2) .incoming)).isNeg = true ∧
    (compareByOldestAndType (mkImpactW (some 1) .outgoing) (mkImpactW none .incoming)).isNeg = true ∧
    ((compareByOldestAndType (mkImpactW (some 3) .incoming) (mkImpactW (some 3) .outgoing)).isNeg = true ↔
      impactTypeRank .incoming < impactTypeRank .outgoing) :=
  ⟨(compareByOldestAndType_ordering _ _).1 1 2 rfl rfl (by decide),
   (compareByOldestAndType_ordering _ _).2.1 1 rfl rfl,
   (compareByOldestAndType_ordering _ _).2.2 rfl⟩

/-- C1: the ledger returned by `deriveImpacts`, read oldest-first (i.e. the
reverse of the returned newest-first sequence), is chronologically sorted and
carries prefix-sum balances: the i-th oldest impact's balance is the sum of
the values of the first i+1 oldest impacts. -/
theorem deriveImpacts_newest_first_prefix_balances
    (transactions : TransactionMap) (external internal : Chain) :
    ((deriveImpacts transactions external internal).reverse.Pairwise
      (fun a b => impactLE a b = true)) ∧
    ∀ i (hi : i < (deriveImpacts transactions external internal).reverse.length),
      ((deriveImpacts transactions external internal).reverse.get ⟨i, hi⟩).balance =
        (((deriveImpacts transactions external internal).reverse.take (i + 1)).map
          TransactionImpact.value).sum := by
  have hrev : (deriveImpacts transactions external internal).reverse =
      foldBalances none
        ((transactions.map
          (fun info => analyzeTransaction info transactions external internal)).insertionSort
            (fun a b => impactLE a b = true)) := by
    simp [deriveImpacts]
  constructor
  · rw [hrev]
    apply pairwise_foldBalances
    haveI : IsTotal TransactionImpact (fun a b => impactLE a b = true) :=
      ⟨impactLE_total⟩
    haveI : IsTrans TransactionImpact (fun a b => impactLE a b = true) :=
      ⟨impactLE_trans⟩
    exact List.sorted_insertionSort _ _
  · intro i hi
    have htake : ((deriveImpacts transactions external internal).reverse.take (i + 1)).map
        TransactionImpact.value =
        (((deriveImpacts transactions external internal).reverse.map
          TransactionImpact.value).take (i + 1)) := by
      rw [List.map_take]
    rw [htake, List.get_of_eq hrev ⟨i, hi⟩, foldBalances_balance_none]
    conv_rhs => rw [hrev, foldBalances_value_map]

theorem deriveImpacts_newest_first_prefix_balances_wit :
    ((deriveImpacts txMapW chainExtW chainIntW).reverse.get ⟨0, by decide⟩).balance =
      (((deriveImpacts txMapW chainExtW chainIntW).reverse.take 1).map
        TransactionImpact.value).sum :=
  (deriveImpacts_newest_first_prefix_balances txMapW chainExtW chainIntW).2 0 (by decide)

/-- C4: the impact value equals credited owned output values minus debited
resolved owned input values. -/
theorem analyzeTransaction_value_eq (info : TransactionInfo)
    (transactions : TransactionMap) (external internal : Chain) :
    (analyzeTransaction info transactions external internal).value =
      ((info.tx.outs.filter (isCreditOut external internal)).map Output.value).sum -
        (debitedInputValues info transactions external internal).sum := by
  simp only [analyzeTransaction, analyze_insFold, analyze_outsFold, debitedInputValues]
  ring

/-- C5: a transaction all of whose inputs resolve to owned previous outputs
and all of whose outputs are owned is classified internal with no targets. -/
theorem analyzeTransaction_all_owned_internal (info : TransactionInfo)
    (transactions : TransactionMap) (external internal : Chain)
    (hin : ∀ p ∈ info.tx.ins.enum,
      ((transactions.getOutput (info.inputIds[p.1]?) p.2.index).any
        (isCreditOut external internal)) = true)
    (hout : ∀ o ∈ info.tx.outs, isCreditOut external internal o = true) :
    (analyzeTransaction info transactions external internal).type =
      TransactionImpactType.internal ∧
    (analyzeTransaction info transactions external internal).targets = [] := by
  have hd : (info.tx.ins.enum.filterMap
      (debitResolve info transactions external internal)).length =
      info.tx.ins.length := by
    rw [filterMap_length_of_forall_isSome _ _ ?_, List.enum_length]
    intro p hp
    have := hin p hp
    rcases hg : transactions.getOutput (info.inputIds[p.1]?) p.2.index with _ | o
    · rw [hg] at this; simp [Option.any] at this
    · rw [hg] at this
      simp only [Option.any] at this
      simp [debitResolve, hg, this]
  have hc : (info.tx.outs.filter (isCreditOut external internal)).length =
      info.tx.outs.length := by
    rw [List.filter_eq_self.mpr hout]
  constructor <;>
    · simp only [analyzeTransaction, analyze_insFold, analyze_outsFold]
      simp [hd, hc]

theorem analyzeTransaction_all_owned_internal_wit :
    (analyzeTransaction allOwnTxInfoW txMapW2 chainExtW chainIntW).type =
      TransactionImpactType.internal ∧
    (analyzeTransaction allOwnTxInfoW txMapW2 chainExtW chainIntW).targets = [] :=
  analyzeTransaction_all_owned_internal allOwnTxInfoW txMapW2 chainExtW chainIntW
    (by decide) (by decide)

/-- C6: the end-to-end outgoing scenario: spend a previously seen owned
5000-satoshi output into an owned 3000-satoshi output and an unowned
1800-satoshi output. -/
theorem analyzeTransaction_outgoing_scenario :
    (analyzeTransaction spendTxInfoW txMapW chainExtW chainIntW).type =
      TransactionImpactType.outgoing ∧
    (analyzeTransaction spendTxInfoW txMapW chainExtW chainIntW).value = -2000 ∧
    (analyzeTransaction spendTxInfoW txMapW chainExtW chainIntW).targets =
      [{ script := [], value := 1800, address := some "addrOther" }] := by
  decide

/-- C7: observing the same transaction id twice interns one Transaction: the
first observation builds and caches it, the second returns the identical
cached value without building or changing the cache, and existing cache
bindings are never replaced. -/
theorem txCache_interning (cache : TxCache) (o1 o2 : Observation)
    (hid : o2.txid = o1.txid) (hfresh : cacheGet cache o1.txid = none) :
    (observe (observe cache o1).2.1 o2).1.tx = (observe cache o1).1.tx ∧
    (observe cache o1).2.2 = true ∧
    (observe (observe cache o1).2.1 o2).2.2 = false ∧
    (observe (observe cache o1).2.1 o2).2.1 = (observe cache o1).2.1 ∧
    cacheGet (observe cache o1).2.1 o1.txid = some (observe cache o1).1.tx ∧
    (∀ id tx, cacheGet cache id = some tx →
      cacheGet (observe cache o1).2.1 id = some tx) := by
  obtain ⟨b1tx, b1c, b1b⟩ := observe_miss_parts cache o1 hfresh
  have hhit : cacheGet (observe cache o1).2.1 o2.txid = some (observe cache o1).1.tx := by
    rw [b1c, hid, b1tx]
    exact cacheGet_cacheSet_same cache o1.txid o1.build
  obtain ⟨h2tx, h2c, h2b⟩ := observe_hit_parts _ o2 _ hhit
  refine ⟨h2tx, b1b, h2b, h2c, ?_, ?_⟩
  · rw [← hid]
    exact hhit
  · intro id tx h
    rw [b1c]
    by_cases hne : o1.txid == id
    · exfalso
      rw [show o1.txid = id from by simpa using hne, h] at hfresh
      exact Option.noConfusion hfresh
    · rw [cacheGet_cacheSet_other cache o1.txid id o1.build
        (by simpa using hne)]
      exact h

theorem txCache_interning_wit :
    (observe (observe ([] : TxCache) nodeObsW).2.1 insightObsW).1.tx =
      (observe ([] : TxCache) nodeObsW).1.tx ∧
    (observe (observe ([] : TxCache) nodeObsW).2.1 insightObsW).2.2 = false :=
  ⟨(txCache_interning [] nodeObsW insightObsW rfl rfl).1,
   (txCache_interning [] nodeObsW insightObsW rfl rfl).2.2.1⟩

/-- C9: `subscribe` forwards exactly the not-yet-watched addresses, adds every
forwarded address (and keeps the old ones) in the watched set, and a repeated
call with the same addresses forwards nothing. -/
theorem subscribe_idempotent (state addrs : List String) :
    (subscribe state addrs).2 = addrs.filter (fun a => !(state.contains a)) ∧
    (∀ a ∈ (subscribe state addrs).2, a ∈ (subscribe state addrs).1) ∧
    (∀ a ∈ state, a ∈ (subscribe state addrs).1) ∧
    (subscribe (subscribe state addrs).1 addrs).2 = [] := by
  refine ⟨rfl, ?_, ?_, ?_⟩
  · intro a ha
    exact (mem_foldl_setAdd a _ state).mpr (Or.inr ha)
  · intro a ha
    exact (mem_foldl_setAdd a _ state).mpr (Or.inl ha)
  · have hmem : ∀ a ∈ addrs, a ∈ (subscribe state addrs).1 := by
      intro a ha
      by_cases hs : state.contains a
      · exact (mem_foldl_setAdd a _ state).mpr (Or.inl (by simpa using hs))
      · exact (mem_foldl_setAdd a _ state).mpr
          (Or.inr (List.mem_filter.mpr ⟨ha, by simpa using hs⟩))
    rw [show (subscribe (subscribe state addrs).1 addrs).2 =
      addrs.filter (fun a => !((subscribe state addrs).1.contains a)) from rfl]
    rw [List.filter_eq_nil_iff]
    intro a ha
    simp only [Bool.not_eq_true', Bool.not_eq_false]
    exact List.elem_iff.mpr (hmem a ha)

theorem subscribe_idempotent_wit :
    (subscribe ["a"] ["a", "b"]).2 =
      (["a", "b"].filter (fun x => !(["a"].contains x))) ∧
    ("b" ∈ (subscribe ["a"] ["a", "b"]).1) ∧
    (subscribe (subscribe ["a"] ["a", "b"]).1 ["a", "b"]).2 = [] :=
  ⟨(subscribe_idempotent ["a"] ["a", "b"]).1,
   (subscribe_idempotent ["a"] ["a", "b"]).2.1 "b" (by decide),
   (subscribe_idempotent ["a"] ["a", "b"]).2.2.2⟩

/-- C10: every exposed TransactionInfo has a strictly positive height or none,
its timestamp is absent whenever the height is absent, a backend record at
height 0 is exposed with no height and no timestamp even when a timestamp was
supplied, and a mempool notification (absent height, `-1` sentinel) likewise. -/
theorem txInfo_height_normalization (cache : TxCache) (o : Observation)
    (rBc : BcTransactionInfo) (r : BcNotification) :
    (∀ h, (observe cache o).1.height = some h → 0 < h) ∧
    ((observe cache o).1.height = none → (observe cache o).1.timestamp = none) ∧
    (rBc.height = 0 →
      (toInfo cache rBc).1.height = none ∧ (toInfo cache rBc).1.timestamp = none) ∧
    (r.height = none → ∀ m c', notificationToMatch cache r = .ok (m, c') →
      m.info.height = none ∧ m.info.timestamp = none) := by
  have hto : ∀ (c : TxCache) (rb : BcTransactionInfo),
      (toInfo c rb).1.height = (if 0 < rb.height then some rb.height else none) ∧
      (toInfo c rb).1.timestamp = (if 0 < rb.height then rb.timestamp else none) := by
    intro c rb
    rcases hg : cacheGet c rb.tx.hash with _ | tx <;>
      simp [toInfo, hg, TransactionInfo.make]
  have hins : ∀ (c : TxCache) (ri : InsightTransactionInfo),
      (insightToInfo c ri).1.height =
        (if 0 < ri.blockheight then some ri.blockheight else none) ∧
      (insightToInfo c ri).1.timestamp =
        (if 0 < ri.blockheight then some ri.time else none) := by
    intro c ri
    rcases hg : cacheGet c ri.txid with _ | tx <;>
      simp [insightToInfo, hg, TransactionInfo.make]
  refine ⟨?_, ?_, ?_, ?_⟩
  · intro h hh
    rcases o with rb | ri
    · rw [show observe cache (.node rb) = toInfo cache rb from rfl] at hh
      rw [(hto cache rb).1] at hh
      by_cases hpos : 0 < rb.height
      · rw [if_pos hpos] at hh
        have : rb.height = h := by injection hh
        omega
      · rw [if_neg hpos] at hh
        exact absurd hh (by simp)
    · rw [show observe cache (.insight ri) = insightToInfo cache ri from rfl] at hh
      rw [(hins cache ri).1] at hh
      by_cases hpos : 0 < ri.blockheight
      · rw [if_pos hpos] at hh
        have : ri.blockheight = h := by injection hh
        omega
      · rw [if_neg hpos] at hh
        exact absurd hh (by simp)
  · intro hh
    rcases o with rb | ri
    · rw [show observe cache (.node rb) = toInfo cache rb from rfl] at hh ⊢
      rw [(hto cache rb).1] at hh
      rw [(hto cache rb).2]
      by_cases hpos : 0 < rb.height
      · rw [if_pos hpos] at hh
        exact absurd hh (by simp)
      · rw [if_neg hpos]
    · rw [show observe cache (.insight ri) = insightToInfo cache ri from rfl] at hh ⊢
      rw [(hins cache ri).1] at hh
      rw [(hins cache ri).2]
      by_cases hpos : 0 < ri.blockheight
      · rw [if_pos hpos] at hh
        exact absurd hh (by simp)
      · rw [if_neg hpos]
  · intro h0
    rw [(hto cache rBc).1, (hto cache rBc).2, h0]
    simp
  · intro hnone m c' hok
    simp only [notificationToMatch, hnone] at hok
    rcases hadr : bitcoreToAddress r.address with e | a <;> rw [hadr] at hok
    · exact absurd hok (by simp)
    · cases hok
      constructor
      · rw [(hto cache _).1]
        simp
      · rw [(hto cache _).2]
        simp

theorem txInfo_height_normalization_wit :
    (0 : Int) < 5 ∧
    ((toInfo [] bcZeroHeightW).1.height = none ∧
      (toInfo [] bcZeroHeightW).1.timestamp = none) :=
  ⟨(txInfo_height_normalization [] insightObsW bcZeroHeightW notifW).1 5 (by rfl),
   (txInfo_height_normalization [] insightObsW bcZeroHeightW notifW).2.2.1 rfl⟩

/-- C3 (amended): over a constant backend total, the engine emits
`max 1 (ceil(totalCount / pageLength))` pages — one unconditional first
request plus follow-ups until `to` reaches the latest reported total — and
the concatenation of all pages' items is the full item list, independent of
`pageLength`. -/
theorem lookupAllAddressHistories_page_count (allItems : List α)
    (pageLength : Nat) (hL : 0 < pageLength) :
    (lookupAllAddressHistories allItems pageLength).length =
      max 1 ((allItems.length + pageLength - 1) / pageLength) ∧
    ((lookupAllAddressHistories allItems pageLength).map
      HistoryPage.items).flatten = allItems := by
  constructor
  · simp only [lookupAllAddressHistories, if_pos hL, lookupPagesFrom,
      Nat.zero_add, Nat.min_self, List.length_cons]
    rw [lookupPagesGo_length allItems pageLength hL _ _ (Nat.le_refl _)]
    by_cases h0 : allItems.length = 0
    · rw [h0]
      rw [Nat.div_eq_of_lt (by omega), Nat.div_eq_of_lt (by omega)]
      omega
    · by_cases hfit : pageLength ≤ allItems.length
      · rw [show allItems.length - pageLength + pageLength - 1 =
          allItems.length - 1 from by omega]
        rw [show allItems.length + pageLength - 1 =
          (allItems.length - 1) + pageLength from by omega]
        rw [Nat.add_div_right _ hL]
        rw [Nat.max_eq_right (Nat.le_add_left 1 _)]
      · rw [show allItems.length - pageLength = 0 from by omega]
        rw [Nat.div_eq_of_lt (by omega)]
        rw [Nat.div_eq_of_lt_le
          (by omega : 1 * pageLength ≤ allItems.length + pageLength - 1)
          (by omega : allItems.length + pageLength - 1 < (1 + 1) * pageLength)]
        omega
  · simp only [lookupAllAddressHistories, if_pos hL, lookupPagesFrom,
      Nat.zero_add, Nat.min_self, getAddressHistory, List.map_cons,
      List.flatten_cons, List.drop_zero, Nat.sub_zero]
    rw [lookupPagesGo_join allItems pageLength hL _ _ (Nat.le_refl _)]
    exact List.take_append_drop _ _

theorem lookupAllAddressHistories_page_count_wit :
    (lookupAllAddressHistories ([0, 1, 2] : List Nat) 2).length =
      max 1 ((([0, 1, 2] : List Nat).length + 2 - 1) / 2) ∧
    ((lookupAllAddressHistories ([0, 1, 2] : List Nat) 2).map
      HistoryPage.items).flatten = [0, 1, 2] :=
  lookupAllAddressHistories_page_count [0, 1, 2] 2 (by decide)

/-- C3 counterexample: when the backend reports `totalCount = 0` (no history)
and `pageLength = 1`, the engine still emits its one unconditional first page,
while `ceil(totalCount / pageLength) = 0`. -/
theorem lookupAllAddressHistories_zero_total_cex :
    (lookupAllAddressHistories ([] : List Nat) 1).length = 1 ∧
    (0 + 1 - 1) / 1 = 0 := by
  decide

set_option maxRecDepth 100000

/-- C8: the address adapter hard-fails on any unrecognized network or type
tag (never substituting a default), and on recognized tags returns exactly
the base58-check encoding of the hash under the decoded version byte; in
particular the livenet pubkeyhash descriptor with a 20-zero-byte hash yields
the well-known all-zero P2PKH mainnet address. -/
theorem bitcoreToAddress_spec (r : BcParsedAddress) :
    ((r.network ≠ "livenet" ∧ r.network ≠ "testnet") →
      ∃ e, bitcoreToAddress r = .error e) ∧
    ((r.type ≠ "pubkeyhash" ∧ r.type ≠ "scripthash") →
      ∃ e, bitcoreToAddress r = .error e) ∧
    (∀ n v, bitcoreToNetwork r.network = .ok n →
      bitcoreToAddressVersion n r.type = .ok v →
      bitcoreToAddress r = .ok (toBase58Check (hexToBytes r.hash.data) v)) ∧
    (r.network = "livenet" → r.type = "pubkeyhash" →
      r.hash = "0000000000000000000000000000000000000000" →
      bitcoreToAddress r = .ok "1111111111111111111114oLvT2") := by
  refine ⟨?_, ?_, ?_, ?_⟩
  · rintro ⟨h1, h2⟩
    refine ⟨"Unknown bitcore network " ++ r.network, ?_⟩
    simp [bitcoreToAddress, bitcoreToNetwork, h1, h2]
  · rintro ⟨h1, h2⟩
    by_cases hN1 : r.network = "livenet"
    · refine ⟨"Unknown bitcore address version " ++ r.type, ?_⟩
      simp [bitcoreToAddress, bitcoreToNetwork, hN1, bitcoreToAddressVersion, h1, h2]
    · by_cases hN2 : r.network = "testnet"
      · refine ⟨"Unknown bitcore address version " ++ r.type, ?_⟩
        simp [bitcoreToAddress, bitcoreToNetwork, hN1, hN2,
          bitcoreToAddressVersion, h1, h2]
      · refine ⟨"Unknown bitcore network " ++ r.network, ?_⟩
        simp [bitcoreToAddress, bitcoreToNetwork, hN1, hN2]
  · intro n v hn hv
    simp [bitcoreToAddress, hn, hv]
  · intro e1 e2 e3
    rcases r with ⟨rh, rn, rt⟩
    simp only at e1 e2 e3
    subst e1
    subst e2
    subst e3
    rfl

theorem bitcoreToAddress_spec_wit :
    bitcoreToAddress
      { hash := "0000000000000000000000000000000000000000",
        network := "livenet", type := "pubkeyhash" } =
      Except.ok "1111111111111111111114oLvT2" :=
  (bitcoreToAddress_spec _).2.2.2 rfl rfl rfl
